import Mathlib

/-!
# Verification of the combat core and room/player logic of a text adventure game

The repository provides `main.rs`, `player.rs` and `rooms.rs`.  The modules
`combat`, `items`, `config`, `menu` and `map` are declared in `main.rs` but
their sources are not part of the excerpt, so the combat engine (Health,
Action, resolver, battle loop) and the item types are modelled from the
specification; the definitions taken from `player.rs`, `rooms.rs` and
`main.rs` follow the source code.
-/

namespace TextGame

/-- Modelled from the spec (the `items` module is missing from the excerpt):
a Food item has a name and a heal amount (`heals_for`, used in
`player.rs::use_item`). -/
structure Food where
  name : String
  heals_for : ℤ
deriving DecidableEq

/-- Modelled from the spec (the `items` module is missing from the excerpt):
a Weapon item has a name and a fixed damage value. -/
structure Weapon where
  name : String
  damage : ℤ
deriving DecidableEq

/-- Modelled from the spec: two kinds of items — Food and Weapon
(matching the `Item::Food` / `Item::Weapon` patterns matched in `player.rs`). -/
inductive Item where
  | Food (f : Food)
  | Weapon (w : Weapon)
deriving DecidableEq

/-- The `combat::Health` type is missing from the excerpt; the spec describes
it as an integer quantity, so health values are modelled as plain `ℤ`
throughout and the bounded operations live in the `Health` namespace. -/
abbrev Health := ℤ

/-- Modelled from the spec (`combat` module missing):
`damage(amount)`: result `= max(0, h - amount)`; total, no error. -/
def Health.damage (h amount : ℤ) : ℤ := max 0 (h - amount)

/-- Modelled from the spec (`combat` module missing):
`healToMax(amount, max)`: result `= min(max, h + amount)`; total, no error.
Named `heal_to_max` as in the call `self.health.heal_to_max(...)` in
`player.rs`. -/
def Health.heal_to_max (h amount m : ℤ) : ℤ := min m (h + amount)

/-- Modelled from the spec (`combat` module missing): the closed set of
combat actions, as enumerated in the spec's data model and pattern-matched
in `player.rs::describe_combat_action`. -/
inductive Action where
  | AttackLeft (i : ℕ)
  | AttackStraight (i : ℕ)
  | AttackRight (i : ℕ)
  | EatFood (i : ℕ)
  | DodgeLeft
  | DodgeRight
  | Nothing
deriving DecidableEq

/-- An attack direction: Left, Straight or Right. -/
inductive Dir where
  | left
  | straight
  | right
deriving DecidableEq

/-- The direction of an action, when the action is an attack. -/
def Action.attackDir : Action → Option Dir
  | .AttackLeft _ => some .left
  | .AttackStraight _ => some .straight
  | .AttackRight _ => some .right
  | _ => none

/-- Modelled from the spec: a dodge fully negates an attack of the same
side; a dodge does not negate an attack of the opposite side or a Straight
attack; `Nothing` / `EatFood` give no protection. -/
def dodgeNegates : Dir → Action → Bool
  | .left, .DodgeLeft => true
  | .right, .DodgeRight => true
  | _, _ => false

/-- Modelled from the spec (`combat` module missing): the enemy is a
combatant with health, a maximum health and an intrinsic attack damage. -/
structure Enemy where
  health : ℤ
  max_health : ℤ
  damage : ℤ
deriving DecidableEq

/-- The player's combatant view inside a battle: health, maximum health and
inventory (the fields of `Player` the battle loop reads and writes). -/
structure PlayerC where
  health : ℤ
  max_health : ℤ
  inventory : List Item
deriving DecidableEq

/-- Modelled from the spec: the resolver rejects an action whose item index
no longer refers to an item of the required kind with an `InvalidAction`
error rather than silently doing nothing or aborting the process. -/
inductive CombatError where
  | InvalidAction
deriving DecidableEq

/-- Modelled from the spec: validation and own-side effects of the player's
action.  Returns the player's outgoing damage, the player's health after a
possible heal (heals apply before incoming damage, per Scenario B), and the
inventory after a possible item consumption.  Attacks require a Weapon at
the index, `EatFood` requires Food at the index (otherwise `InvalidAction`);
`EatFood` heals via `heal_to_max` and then removes the item. -/
def playerEffect (p : PlayerC) : Action → Except CombatError (ℤ × ℤ × List Item)
  | .AttackLeft i | .AttackStraight i | .AttackRight i =>
    match p.inventory[i]? with
    | some (.Weapon w) => .ok (w.damage, p.health, p.inventory)
    | _ => .error .InvalidAction
  | .EatFood i =>
    match p.inventory[i]? with
    | some (.Food f) =>
        .ok (0, Health.heal_to_max p.health f.heals_for p.max_health,
             p.inventory.eraseIdx i)
    | _ => .error .InvalidAction
  | _ => .ok (0, p.health, p.inventory)

/-- Modelled from the spec (`combat` module missing): the action resolver.
Both actions are revealed simultaneously; each attack is evaluated against
the other side's action: a landed attack subtracts its fixed damage value
from the defender's health via `Health.damage`, a dodge of the same side
negates it.  The enemy's attacks carry its intrinsic damage and need no
inventory; the enemy never has inventory-bound actions so only the player's
action can fail validation. -/
def resolve (p : PlayerC) (e : Enemy) (pa ea : Action) :
    Except CombatError (PlayerC × Enemy) :=
  match playerEffect p pa with
  | .error err => .error err
  | .ok (pdmg, healed, inv') =>
      let pHealth : ℤ :=
        match ea.attackDir with
        | some d => if dodgeNegates d pa then healed else Health.damage healed e.damage
        | none => healed
      let eHealth : ℤ :=
        match pa.attackDir with
        | some d => if dodgeNegates d ea then e.health else Health.damage e.health pdmg
        | none => e.health
      .ok ({ p with health := pHealth, inventory := inv' },
           { e with health := eHealth })

/-- Modelled from the spec: the battle state machine's status —
`Ongoing`, or the terminal `PlayerWin` / `PlayerLoss`. -/
inductive BattleStatus where
  | Ongoing
  | PlayerWin
  | PlayerLoss
deriving DecidableEq

/-- The state carried through one battle: both combatants and the shared
turn counter (handed to `battle` by mutable reference in `main.rs`). -/
structure BattleState where
  player : PlayerC
  enemy : Enemy
  turn : ℤ
deriving DecidableEq

/-- Modelled from the spec (`combat` module missing): one iteration of the
battle loop for a resolved turn.  The turn counter is incremented once per
resolved turn; then termination is checked with the player's health first:
player health 0 gives `PlayerLoss` (even on a mutual knockout), otherwise
enemy health 0 gives `PlayerWin`, otherwise the battle stays `Ongoing`.
An `InvalidAction` is fatal to the turn only: the state is left untouched
and the side is re-prompted. -/
def battleStep (pa ea : Action) (s : BattleState) : BattleState × BattleStatus :=
  match resolve s.player s.enemy pa ea with
  | .error _ => (s, .Ongoing)
  | .ok (p', e') =>
      (⟨p', e', s.turn + 1⟩,
       if p'.health = 0 then .PlayerLoss
       else if e'.health = 0 then .PlayerWin
       else .Ongoing)

/-- Modelled from the spec: the battle loop, driven by externally supplied
action streams (one action per loop iteration for each side) and a fuel
bound on the number of iterations examined.  It stops at the first terminal
status. -/
def battleRun (pActs eActs : ℕ → Action) : ℕ → BattleState → BattleState × BattleStatus
  | 0, s => (s, .Ongoing)
  | n + 1, s =>
      match battleStep (pActs 0) (eActs 0) s with
      | (s', .Ongoing) => battleRun (fun k => pActs (k + 1)) (fun k => eActs (k + 1)) n s'
      | r => r

/-- The rooms of the game, from `rooms.rs` (`enum Room`): an identifier
only, the mutable contents live in `RoomState`. -/
inductive Room where
  | Bridge
  | UpperCorridor
  | StrategyRoom
  | Cells
  | MessHall
  | Kitchen
  | Stairwell
  | CrewArea
  | StoreRoom
  | LowerCorridor
  | WashRoom
  | Bunks
  | EngineRoom
  | EscapePod
  | Escape
deriving DecidableEq

/-- A transition between two rooms, from `rooms.rs` (`struct RoomTransition`). -/
structure RoomTransition where
  message : String
  «to» : Room
  prompt_text : Option String
deriving DecidableEq

/-- The `map` module is missing from the excerpt; `RoomAction` is modelled
as an abstract token since no claim depends on its content. -/
inductive RoomAction where
  | mk
deriving DecidableEq

/-- The state of a room, from `rooms.rs` (`struct RoomState`): the room it
belongs to, the items lying in it, an optional enemy occupant, the
connections to other rooms and the room's actions. -/
structure RoomState where
  room : Room
  items : List Item
  enemy : Option Enemy
  connections : List RoomTransition
  actions : List RoomAction
deriving DecidableEq

/-- `RoomState::new` from `rooms.rs`: empty items and actions, no enemy. -/
def RoomState.new (room : Room) (connections : List RoomTransition) : RoomState :=
  ⟨room, [], none, connections, []⟩

/-- `RoomState::add_item` from `rooms.rs`: push an item onto `items`. -/
def RoomState.add_item (s : RoomState) (item : Item) : RoomState :=
  { s with items := s.items ++ [item] }

/-- `RoomState::add_action` from `rooms.rs`: push an action onto `actions`. -/
def RoomState.add_action (s : RoomState) (a : RoomAction) : RoomState :=
  { s with actions := s.actions ++ [a] }

/-- `RoomState::with_enemy` from `rooms.rs`: `assert!(self.enemy.is_none())`
then set the slot.  The assertion failure (a panic) is modelled as `none`. -/
def RoomState.with_enemy (s : RoomState) (e : Enemy) : Option RoomState :=
  match s.enemy with
  | none => some { s with enemy := some e }
  | some _ => none

/-- The state of all rooms, from `rooms.rs` (`struct RoomGraph`).  The Rust
`HashMap<Room, RoomState>` is modelled as a total map because both
`get_state` and `get_state_mut` unwrap the lookup and the graph is built
with every room present. -/
structure RoomGraph where
  rooms : Room → RoomState

/-- Pointwise update of the room graph, modelling mutation through
`RoomGraph::get_state_mut`. -/
def RoomGraph.update (g : RoomGraph) (r : Room) (s : RoomState) : RoomGraph :=
  ⟨fun r' => if r' = r then s else g.rooms r'⟩

/-- The player's state, from `player.rs` (`struct Player`). -/
structure Player where
  room : Room
  inventory : List Item
  health : ℤ
  max_health : ℤ
  room_graph : RoomGraph

/-- An action the player can take outside of a battle, from `player.rs`
(`enum PassiveAction`). -/
inductive PassiveAction where
  | CheckState
  | GoToRoom (r : Room)
  | UseItem (i : ℕ)
  | PickUpItem (i : ℕ)

/-- The result of `Player::use_item`: either the updated player, or a Rust
panic (process abort) with its message. -/
inductive UseItemOutcome where
  | ok (p : Player)
  | panicked (msg : String)

/-- `Player::use_item` from `player.rs` lines 114-133.  Food heals via
`heal_to_max` and is then removed from the inventory (`Vec::remove`);
a Weapon at the index hits `panic!("Weapons cannot be used outside of
combat")`; an out-of-bounds index panics at `self.inventory[i]`. -/
def Player.use_item (p : Player) (i : ℕ) : UseItemOutcome :=
  match p.inventory[i]? with
  | some (.Food f) =>
      .ok { p with health := Health.heal_to_max p.health f.heals_for p.max_health,
                   inventory := p.inventory.eraseIdx i }
  | some (.Weapon _) => .panicked "Weapons cannot be used outside of combat"
  | none => .panicked "index out of bounds"

/-- `Player::take_passive_action` from `player.rs`, applied to an already
chosen `PassiveAction` (the choice itself comes from the external menu
collaborator).  A panic along the way (out-of-bounds item index, weapon use)
is modelled as `none`. -/
def Player.take_passive_action (p : Player) : PassiveAction → Option Player
  | .CheckState => some p
  | .GoToRoom r => some { p with room := r }
  | .UseItem i =>
      match p.use_item i with
      | .ok p' => some p'
      | .panicked _ => none
  | .PickUpItem i =>
      let rs := p.room_graph.rooms p.room
      match rs.items[i]? with
      | some item =>
          some { p with
                 room_graph := p.room_graph.update p.room
                   { rs with items := rs.items.eraseIdx i },
                 inventory := p.inventory ++ [item] }
      | none => none

/-- The option list built by `Player::choose_combat_action` from
`player.rs` lines 151-174: `Nothing`, `DodgeLeft`, `DodgeRight`, then one
option per inventory slot — `EatFood(i)` for food, `AttackStraight(i)` for
a weapon. -/
def combatOptions (inv : List Item) : List Action :=
  [.Nothing, .DodgeLeft, .DodgeRight] ++
    inv.enum.map (fun q => match q.2 with
      | Item.Food _ => Action.EatFood q.1
      | Item.Weapon _ => Action.AttackStraight q.1)

/-- `Player::choose_combat_action` from `player.rs` lines 149-201, as a
function of the inventory (the only field of `self` it reads) and of the
two externally supplied menu choices.  `none` models the panics on an
out-of-range primary choice (`options[choice]`) and the `unreachable!` on a
direction outside `{0,1,2}`.  If the chosen option is a straight attack the
direction sub-choice redirects it; otherwise the chosen option is returned
as is (`swap_remove` returns `options[choice]`). -/
def choose_combat_action (inv : List Item) (choice direction : ℕ) : Option Action :=
  match (combatOptions inv)[choice]? with
  | none => none
  | some a =>
      match a with
      | .AttackStraight i =>
          match direction with
          | 0 => some (.AttackLeft i)
          | 1 => some (.AttackStraight i)
          | 2 => some (.AttackRight i)
          | _ => none
      | a' => some a'

/-- The fields of the player a battle reads and writes, bundled for the
spec-modelled battle loop. -/
def Player.toCombatant (p : Player) : PlayerC :=
  ⟨p.health, p.max_health, p.inventory⟩

/-- Write a battle's combatant state back into the player (`battle` takes
`&mut player` in `main.rs`). -/
def Player.withCombatant (p : Player) (c : PlayerC) : Player :=
  { p with health := c.health, max_health := c.max_health, inventory := c.inventory }

/-- `player.get_room_state_mut().enemy.take()` from `main.rs` line 43:
returns the current room's occupant and the player with that slot cleared. -/
def Player.takeEnemy (p : Player) : Option Enemy × Player :=
  let rs := p.room_graph.rooms p.room
  (rs.enemy,
   { p with room_graph := p.room_graph.update p.room { rs with enemy := none } })

/-- The state carried by the inner gameplay loop of `main.rs`: the player
and the session's turn counter. -/
structure GameState where
  player : Player
  turn_number : ℤ

/-- The external inputs consumed by one iteration of the inner gameplay
loop: the two battle action streams and a fuel bound for the battle (if an
enemy is encountered), and the passive action chosen afterwards. -/
structure StepInput where
  pActs : ℕ → Action
  eActs : ℕ → Action
  fuel : ℕ
  passive : PassiveAction

/-- What happened during one iteration of the inner gameplay loop. -/
inductive StepOutcome where
  | NoEnemy
  | Fought (result : BattleStatus)
deriving DecidableEq

/-- One iteration of the inner gameplay loop of `main.rs` lines 39-57:
increment the turn counter; if the current room holds an enemy, take it out
of the room and fight it — on `PlayerLoss` restart the run
(`continue 'time_loop`: a fresh `Player::init()` and the turn counter reset
to 0), otherwise continue with the battle's final turn counter; then take
the passive action.  `none` models a panic inside the passive action or a
battle that did not finish within the given fuel. -/
def innerStepFull (init : Player) (inp : StepInput) (s : GameState) :
    Option (GameState × StepOutcome) :=
  match (s.player.room_graph.rooms s.player.room).enemy with
  | some e =>
      match (battleRun inp.pActs inp.eActs inp.fuel
          ⟨(s.player.takeEnemy).2.toCombatant, e, s.turn_number + 1⟩).2 with
      | .PlayerLoss => some (⟨init, 0⟩, .Fought .PlayerLoss)
      | .PlayerWin =>
          match ((s.player.takeEnemy).2.withCombatant
              (battleRun inp.pActs inp.eActs inp.fuel
                ⟨(s.player.takeEnemy).2.toCombatant, e,
                  s.turn_number + 1⟩).1.player).take_passive_action inp.passive with
          | some p2 =>
              some (⟨p2, (battleRun inp.pActs inp.eActs inp.fuel
                ⟨(s.player.takeEnemy).2.toCombatant, e,
                  s.turn_number + 1⟩).1.turn⟩, .Fought .PlayerWin)
          | none => none
      | .Ongoing => none
  | none =>
      match s.player.take_passive_action inp.passive with
      | some p2 => some (⟨p2, s.turn_number + 1⟩, .NoEnemy)
      | none => none

/-- An action's item index, when present, refers to an item of the matching
kind in the given inventory: `EatFood i` needs Food at slot `i`, the three
attacks need a Weapon at slot `i`; index-free actions are always valid. -/
def actionValid (inv : List Item) : Action → Bool
  | .EatFood i =>
      match inv[i]? with
      | some (.Food _) => true
      | _ => false
  | .AttackLeft i | .AttackStraight i | .AttackRight i =>
      match inv[i]? with
      | some (.Weapon _) => true
      | _ => false
  | _ => true

/-- A room graph in which every room is empty, for concrete evaluation. -/
def bareGraph : RoomGraph := ⟨fun r => RoomState.new r []⟩

/-- A sample enemy strong enough to end a battle in one turn. -/
def bridgeEnemy : Enemy := ⟨5, 5, 10⟩

/-- A room graph whose Bridge holds `bridgeEnemy` and whose other rooms are
empty. -/
def lossGraph : RoomGraph :=
  ⟨fun r =>
    match r with
    | .Bridge => { RoomState.new .Bridge [] with enemy := some bridgeEnemy }
    | r' => RoomState.new r' []⟩

/-- A fresh player facing `lossGraph`, used to evaluate a session in which
the first battle is lost. -/
def initL : Player := ⟨.Bridge, [], 5, 5, lossGraph⟩

/-- Inputs for one inner-loop iteration in which the player does nothing in
battle while the enemy attacks straight. -/
def inpL : StepInput := ⟨fun _ => .Nothing, fun _ => .AttackStraight 0, 1, .CheckState⟩

/-- A fresh player facing an empty world. -/
def initW : Player := ⟨.Bridge, [], 10, 10, bareGraph⟩

/-- Inputs for one quiet inner-loop iteration (no battle happens). -/
def inpW : StepInput := ⟨fun _ => .Nothing, fun _ => .Nothing, 0, .CheckState⟩

/-- A player holding a weapon in slot 0, for evaluating `use_item`. -/
def c1Player : Player := ⟨.Bridge, [Item.Weapon ⟨"sword", 3⟩], 10, 10, bareGraph⟩

/-- The action stream that always does nothing. -/
def alwaysIdle : ℕ → Action := fun _ => .Nothing

/-- The action stream that always attacks straight with inventory slot 0. -/
def alwaysStraight : ℕ → Action := fun _ => .AttackStraight 0

/-- A battle in which both sides can deal strictly positive, bounded
damage: the player holds a damage-3 weapon and the enemy hits for 2. -/
def c3S : BattleState := ⟨⟨10, 10, [Item.Weapon ⟨"sword", 3⟩]⟩, ⟨5, 5, 2⟩, 0⟩

/-- A mutual-knockout battle state: the player at 5 HP with a damage-7
weapon against an enemy at 3 HP hitting for 9. -/
def koState : BattleState := ⟨⟨5, 10, [Item.Weapon ⟨"sword", 7⟩]⟩, ⟨3, 3, 9⟩, 0⟩

/-- A sample player combatant with a weapon in slot 0 and food in slot 1. -/
def c5P : PlayerC := ⟨10, 10, [Item.Weapon ⟨"sword", 3⟩, Item.Food ⟨"bread", 4⟩]⟩

/-- A sample enemy for resolver evaluation. -/
def c5E : Enemy := ⟨8, 8, 2⟩

/-- An empty Bridge room state. -/
def emptyBridge : RoomState := RoomState.new .Bridge []

/-- A sample inventory with a weapon in slot 0 and food in slot 1. -/
def c10Inv : List Item := [Item.Weapon ⟨"sword", 3⟩, Item.Food ⟨"bread", 4⟩]

/-- A room graph whose Bridge holds a weak enemy (5 HP, damage 2) and whose
other rooms are empty. -/
def winGraph : RoomGraph :=
  ⟨fun r =>
    match r with
    | .Bridge => { RoomState.new .Bridge [] with enemy := some ⟨5, 5, 2⟩ }
    | r' => RoomState.new r' []⟩

/-- A fresh player with a damage-10 weapon facing `winGraph`, used to
evaluate a session in which the first battle is won in one turn. -/
def initB : Player := ⟨.Bridge, [Item.Weapon ⟨"sword", 10⟩], 10, 10, winGraph⟩

/-- Inputs for one inner-loop iteration in which the player always attacks
straight while the enemy does nothing. -/
def inpB : StepInput := ⟨alwaysStraight, alwaysIdle, 1, .CheckState⟩

/-- The player state after `initB` wins its one-turn Bridge battle: same
fields, with the Bridge's enemy slot cleared. -/
def postWinPlayer : Player :=
  { initB with
    room_graph := RoomGraph.update initB.room_graph .Bridge
      ({ winGraph.rooms .Bridge with enemy := none }) }

/-- C6: for every health value h with 0 ≤ h ≤ m and every nonnegative
amount d, the Health damage operation returns exactly max(0, h - d), which
lies in [0, h]; it is a total function (never errors), even when d exceeds
h. -/
theorem c6_health_damage (h m d : ℤ) (h0 : 0 ≤ h) (hm : h ≤ m) (hd : 0 ≤ d) :
    Health.damage h d = max 0 (h - d) ∧
      0 ≤ Health.damage h d ∧ Health.damage h d ≤ h := by
  unfold Health.damage
  have h3 : max 0 (h - d) ≤ h := max_le h0 (by omega)
  exact ⟨rfl, le_max_left _ _, h3⟩

/-- Witness for C6 at h = 5, m = 10, d = 7 (the amount exceeds the current
health and the result floors at 0). -/
theorem c6_health_damage_witness :
    (0:ℤ) ≤ 5 ∧ (5:ℤ) ≤ 10 ∧ (0:ℤ) ≤ 7 ∧
      (Health.damage 5 7 = max 0 (5 - 7) ∧
        0 ≤ Health.damage 5 7 ∧ Health.damage 5 7 ≤ 5) :=
  ⟨by decide, by decide, by decide,
   c6_health_damage 5 10 7 (by decide) (by decide) (by decide)⟩

/-- C7: for every health value h with 0 ≤ h ≤ m and every nonnegative
amount a, the Health heal-to-max operation returns exactly min(m, h + a),
which lies in [h, m]; it is a total function (never errors). -/
theorem c7_heal_to_max (h a m : ℤ) (h0 : 0 ≤ h) (hm : h ≤ m) (ha : 0 ≤ a) :
    Health.heal_to_max h a m = min m (h + a) ∧
      h ≤ Health.heal_to_max h a m ∧ Health.heal_to_max h a m ≤ m := by
  unfold Health.heal_to_max
  have h2 : h ≤ min m (h + a) := le_min hm (by omega)
  exact ⟨rfl, h2, min_le_left _ _⟩

/-- Witness for C7 at h = 3, a = 9, m = 10 (healing is clamped at the
maximum). -/
theorem c7_heal_to_max_witness :
    (0:ℤ) ≤ 3 ∧ (3:ℤ) ≤ 10 ∧ (0:ℤ) ≤ 9 ∧
      (Health.heal_to_max 3 9 10 = min 10 (3 + 9) ∧
        3 ≤ Health.heal_to_max 3 9 10 ∧ Health.heal_to_max 3 9 10 ≤ 10) :=
  ⟨by decide, by decide, by decide,
   c7_heal_to_max 3 9 10 (by decide) (by decide) (by decide)⟩

/-- C9: `with_enemy` on a room state whose enemy slot is None returns the
state with the slot set to Some(e); on a state whose slot is already Some
it hits the assertion (modelled as `none`) instead of overwriting the
occupant. -/
theorem c9_with_enemy (s : RoomState) (e : Enemy) :
    (s.enemy = none → s.with_enemy e = some { s with enemy := some e }) ∧
      (∀ e0, s.enemy = some e0 → s.with_enemy e = none) := by
  constructor
  · intro h
    unfold RoomState.with_enemy
    rw [h]
  · intro e0 h
    unfold RoomState.with_enemy
    rw [h]

/-- Witness for C9: attaching `bridgeEnemy` to the empty Bridge room
succeeds and fills the slot. -/
theorem c9_with_enemy_witness :
    emptyBridge.with_enemy bridgeEnemy =
      some { emptyBridge with enemy := some bridgeEnemy } :=
  (c9_with_enemy emptyBridge bridgeEnemy).1 rfl

/-- C5: in the action resolver, a dodge to side S negates all damage of an
attack aimed at side S; a dodge to the opposite side, and any Straight
attack, applies the attack's full configured damage; a defender whose
action is Nothing or EatFood takes full damage from any attack (for the
player defender, the heal applies before the incoming damage and the food
is consumed).  Stated for every pair of chosen actions: first the player
attacking with the weapon in slot i against every defending enemy action,
then the enemy attacking (with its intrinsic damage) against every
defending player action. -/
theorem c5_resolver (p : PlayerC) (e : Enemy) (i j k : ℕ) (w : Weapon) (f : Food)
    (hw : p.inventory[i]? = some (.Weapon w))
    (hf : p.inventory[j]? = some (.Food f)) :
    resolve p e (.AttackLeft i) .DodgeLeft = .ok (p, e) ∧
    resolve p e (.AttackRight i) .DodgeRight = .ok (p, e) ∧
    resolve p e (.AttackLeft i) .DodgeRight =
      .ok (p, { e with health := Health.damage e.health w.damage }) ∧
    resolve p e (.AttackRight i) .DodgeLeft =
      .ok (p, { e with health := Health.damage e.health w.damage }) ∧
    resolve p e (.AttackStraight i) .DodgeLeft =
      .ok (p, { e with health := Health.damage e.health w.damage }) ∧
    resolve p e (.AttackStraight i) .DodgeRight =
      .ok (p, { e with health := Health.damage e.health w.damage }) ∧
    resolve p e (.AttackLeft i) .Nothing =
      .ok (p, { e with health := Health.damage e.health w.damage }) ∧
    resolve p e (.AttackStraight i) .Nothing =
      .ok (p, { e with health := Health.damage e.health w.damage }) ∧
    resolve p e (.AttackRight i) .Nothing =
      .ok (p, { e with health := Health.damage e.health w.damage }) ∧
    resolve p e (.AttackLeft i) (.EatFood k) =
      .ok (p, { e with health := Health.damage e.health w.damage }) ∧
    resolve p e (.AttackStraight i) (.EatFood k) =
      .ok (p, { e with health := Health.damage e.health w.damage }) ∧
    resolve p e (.AttackRight i) (.EatFood k) =
      .ok (p, { e with health := Health.damage e.health w.damage }) ∧
    resolve p e .DodgeLeft (.AttackLeft k) = .ok (p, e) ∧
    resolve p e .DodgeRight (.AttackRight k) = .ok (p, e) ∧
    resolve p e .DodgeLeft (.AttackRight k) =
      .ok ({ p with health := Health.damage p.health e.damage }, e) ∧
    resolve p e .DodgeRight (.AttackLeft k) =
      .ok ({ p with health := Health.damage p.health e.damage }, e) ∧
    resolve p e .DodgeLeft (.AttackStraight k) =
      .ok ({ p with health := Health.damage p.health e.damage }, e) ∧
    resolve p e .DodgeRight (.AttackStraight k) =
      .ok ({ p with health := Health.damage p.health e.damage }, e) ∧
    resolve p e .Nothing (.AttackLeft k) =
      .ok ({ p with health := Health.damage p.health e.damage }, e) ∧
    resolve p e .Nothing (.AttackStraight k) =
      .ok ({ p with health := Health.damage p.health e.damage }, e) ∧
    resolve p e .Nothing (.AttackRight k) =
      .ok ({ p with health := Health.damage p.health e.damage }, e) ∧
    resolve p e (.EatFood j) (.AttackLeft k) =
      .ok ({ p with
             health := Health.damage
               (Health.heal_to_max p.health f.heals_for p.max_health) e.damage,
             inventory := p.inventory.eraseIdx j }, e) ∧
    resolve p e (.EatFood j) (.AttackStraight k) =
      .ok ({ p with
             health := Health.damage
               (Health.heal_to_max p.health f.heals_for p.max_health) e.damage,
             inventory := p.inventory.eraseIdx j }, e) ∧
    resolve p e (.EatFood j) (.AttackRight k) =
      .ok ({ p with
             health := Health.damage
               (Health.heal_to_max p.health f.heals_for p.max_health) e.damage,
             inventory := p.inventory.eraseIdx j }, e) := by
  repeat' apply And.intro
  all_goals simp [resolve, playerEffect, Action.attackDir, dodgeNegates, hw, hf]

/-- Witness for C5 at the sample combatants: the same-side dodge leaves the
enemy untouched while the straight attack lands its full 3 damage through
the dodge. -/
theorem c5_resolver_witness :
    resolve c5P c5E (.AttackLeft 0) .DodgeLeft = .ok (c5P, c5E) ∧
    resolve c5P c5E (.AttackStraight 0) .DodgeLeft =
      .ok (c5P, { c5E with health := Health.damage c5E.health 3 }) :=
  ⟨(c5_resolver c5P c5E 0 1 0 ⟨"sword", 3⟩ ⟨"bread", 4⟩ rfl rfl).1,
   (c5_resolver c5P c5E 0 1 0 ⟨"sword", 3⟩ ⟨"bread", 4⟩ rfl rfl).2.2.2.2.1⟩

/-- C4: at the end of every resolved turn the battle loop checks the
player's health first: if the player's health is 0 the result is
`PlayerLoss`, even when the enemy's health also reached 0 in the same turn;
only otherwise, if the enemy's health is 0, the result is `PlayerWin`. -/
theorem c4_loss_checked_first (pa ea : Action) (s : BattleState)
    (p' : PlayerC) (e' : Enemy)
    (hres : resolve s.player s.enemy pa ea = .ok (p', e')) :
    (battleStep pa ea s).2 =
      (if p'.health = 0 then .PlayerLoss
       else if e'.health = 0 then .PlayerWin
       else .Ongoing) ∧
    (p'.health = 0 → (battleStep pa ea s).2 = .PlayerLoss) ∧
    (p'.health ≠ 0 → e'.health = 0 → (battleStep pa ea s).2 = .PlayerWin) := by
  unfold battleStep
  rw [hres]
  refine ⟨rfl, ?_, ?_⟩
  · intro hp0
    simp [hp0]
  · intro hp0 he0
    simp [hp0, he0]

/-- Witness for C4 at the mutual-knockout state `koState`: both healths
reach 0 in the same turn and the result is `PlayerLoss`. -/
theorem c4_loss_checked_first_witness :
    (battleStep (.AttackStraight 0) (.AttackStraight 0) koState).2 = .PlayerLoss :=
  (c4_loss_checked_first (.AttackStraight 0) (.AttackStraight 0) koState
      ⟨0, 10, [Item.Weapon ⟨"sword", 7⟩]⟩ ⟨0, 3, 9⟩ rfl).2.1 rfl

/-- Every entry of the combat option list is one of the three base actions,
an `EatFood i` backed by Food in slot i, or an `AttackStraight i` backed by
a Weapon in slot i. -/
theorem combatOptions_spec (inv : List Item) (a : Action)
    (ha : a ∈ combatOptions inv) :
    a = .Nothing ∨ a = .DodgeLeft ∨ a = .DodgeRight ∨
      (∃ i f, inv[i]? = some (.Food f) ∧ a = .EatFood i) ∨
      (∃ i w, inv[i]? = some (.Weapon w) ∧ a = .AttackStraight i) := by
  unfold combatOptions at ha
  rw [List.mem_append] at ha
  rcases ha with ha | ha
  · simp only [List.mem_cons, List.not_mem_nil, or_false] at ha
    tauto
  · rw [List.mem_map] at ha
    obtain ⟨q, hq, hfa⟩ := ha
    have hget : inv[q.1]? = some q.2 := List.mem_enum_iff_getElem?.mp hq
    obtain ⟨qi, item⟩ := q
    cases item with
    | Food f =>
        refine Or.inr (Or.inr (Or.inr (Or.inl ⟨qi, f, hget, ?_⟩)))
        exact hfa.symm
    | Weapon w =>
        refine Or.inr (Or.inr (Or.inr (Or.inr ⟨qi, w, hget, ?_⟩)))
        exact hfa.symm

/-- C10: for every inventory and every menu choice within the offered range
(with the direction sub-choice in {0,1,2}), `choose_combat_action` returns
exactly one Action, and whenever that action carries an item index the
index is a valid slot of the matching kind: `EatFood i` only with Food in
slot i, an attack only with a Weapon in slot i. -/
theorem c10_choose_combat_action (inv : List Item) (choice direction : ℕ)
    (hc : choice < (combatOptions inv).length) (hdir : direction < 3) :
    ∃ a, choose_combat_action inv choice direction = some a ∧
      actionValid inv a = true := by
  obtain ⟨a0, ha0⟩ : ∃ a0, (combatOptions inv)[choice]? = some a0 :=
    ⟨_, List.getElem?_eq_getElem hc⟩
  have hmem : a0 ∈ combatOptions inv := by
    rw [← List.get?_eq_getElem?] at ha0
    exact List.get?_mem ha0
  unfold choose_combat_action
  rw [ha0]
  rcases combatOptions_spec inv a0 hmem with h | h | h | ⟨i, f, hif, h⟩ | ⟨i, w, hiw, h⟩ <;>
    subst h
  · exact ⟨.Nothing, rfl, rfl⟩
  · exact ⟨.DodgeLeft, rfl, rfl⟩
  · exact ⟨.DodgeRight, rfl, rfl⟩
  · exact ⟨.EatFood i, rfl, by simp [actionValid, hif]⟩
  · rcases direction with _ | _ | _ | d
    · exact ⟨.AttackLeft i, rfl, by simp [actionValid, hiw]⟩
    · exact ⟨.AttackStraight i, rfl, by simp [actionValid, hiw]⟩
    · exact ⟨.AttackRight i, rfl, by simp [actionValid, hiw]⟩
    · omega

/-- Witness for C10: in an inventory with a weapon in slot 0 and food in
slot 1, choice 3 (the weapon option) with direction 0 yields a valid
action. -/
theorem c10_choose_combat_action_witness :
    ∃ a, choose_combat_action c10Inv 3 0 = some a ∧ actionValid c10Inv a = true :=
  c10_choose_combat_action c10Inv 3 0 (by decide) (by decide)

/-- A straight attack backed by a Weapon always resolves: it cannot be
dodged, so the enemy takes the weapon's full damage whatever its action,
and the player's inventory is unchanged. -/
theorem resolve_attackStraight (i : ℕ) (w : Weapon) (ea : Action) (p : PlayerC) (e : Enemy)
    (hw : p.inventory[i]? = some (.Weapon w)) :
    ∃ ph : ℤ, resolve p e (.AttackStraight i) ea =
      .ok (⟨ph, p.max_health, p.inventory⟩,
           ⟨Health.damage e.health w.damage, e.max_health, e.damage⟩) := by
  cases ea with
  | AttackLeft k =>
      exact ⟨Health.damage p.health e.damage,
        by simp [resolve, playerEffect, Action.attackDir, dodgeNegates, hw]⟩
  | AttackStraight k =>
      exact ⟨Health.damage p.health e.damage,
        by simp [resolve, playerEffect, Action.attackDir, dodgeNegates, hw]⟩
  | AttackRight k =>
      exact ⟨Health.damage p.health e.damage,
        by simp [resolve, playerEffect, Action.attackDir, dodgeNegates, hw]⟩
  | EatFood k =>
      exact ⟨p.health, by simp [resolve, playerEffect, Action.attackDir, dodgeNegates, hw]⟩
  | DodgeLeft =>
      exact ⟨p.health, by simp [resolve, playerEffect, Action.attackDir, dodgeNegates, hw]⟩
  | DodgeRight =>
      exact ⟨p.health, by simp [resolve, playerEffect, Action.attackDir, dodgeNegates, hw]⟩
  | Nothing =>
      exact ⟨p.health, by simp [resolve, playerEffect, Action.attackDir, dodgeNegates, hw]⟩

/-- On a resolved turn, `battleStep` installs the resolver's output and
advances the turn counter; if it reports `Ongoing`, neither combatant's
health is 0. -/
theorem battleStep_ok (pa ea : Action) (s : BattleState) (p' : PlayerC) (e' : Enemy)
    (hres : resolve s.player s.enemy pa ea = .ok (p', e')) :
    (battleStep pa ea s).1 = ⟨p', e', s.turn + 1⟩ ∧
      ((battleStep pa ea s).2 = .Ongoing → p'.health ≠ 0 ∧ e'.health ≠ 0) := by
  unfold battleStep
  rw [hres]
  refine ⟨rfl, ?_⟩
  intro h
  by_cases hp : p'.health = 0
  · simp [hp] at h
  · by_cases he : e'.health = 0
    · simp [hp, he] at h
    · exact ⟨hp, he⟩

/-- With the player attacking straight every turn with a strictly positive
damage weapon, the enemy's health strictly shrinks (as a natural number)
every ongoing turn, so the battle ends within the fuel bound. -/
theorem battleRun_straight_ends (f : ℕ) :
    ∀ (pActs eActs : ℕ → Action) (i : ℕ) (w : Weapon) (s : BattleState),
    (∀ n, pActs n = .AttackStraight i) →
    s.player.inventory[i]? = some (.Weapon w) →
    1 ≤ w.damage → 0 ≤ s.enemy.health →
    s.enemy.health.toNat < f →
    (battleRun pActs eActs f s).2 ≠ .Ongoing := by
  induction f with
  | zero =>
      intro pActs eActs i w s hp hw hd he hf
      omega
  | succ f ih =>
      intro pActs eActs i w s hp hw hd he hf
      obtain ⟨ph, hres⟩ := resolve_attackStraight i w (eActs 0) s.player s.enemy hw
      obtain ⟨hstate, hongoing⟩ := battleStep_ok _ _ s _ _ hres
      have hrun : battleRun pActs eActs (f + 1) s =
          match battleStep (pActs 0) (eActs 0) s with
          | (s', .Ongoing) => battleRun (fun k => pActs (k + 1)) (fun k => eActs (k + 1)) f s'
          | r => r := rfl
      rw [hrun, hp 0]
      rcases hb : battleStep (.AttackStraight i) (eActs 0) s with ⟨s1, st⟩
      rw [hb] at hstate hongoing
      cases st with
      | PlayerWin => simp
      | PlayerLoss => simp
      | Ongoing =>
          have hne : Health.damage s.enemy.health w.damage ≠ 0 := (hongoing rfl).2
          have hs1 : s1 = ⟨⟨ph, s.player.max_health, s.player.inventory⟩,
              ⟨Health.damage s.enemy.health w.damage, s.enemy.max_health, s.enemy.damage⟩,
              s.turn + 1⟩ := hstate
          show (battleRun (fun k => pActs (k + 1)) (fun k => eActs (k + 1)) f s1).2 ≠ .Ongoing
          apply ih (fun k => pActs (k + 1)) (fun k => eActs (k + 1)) i w s1
            (fun n => hp (n + 1))
          · rw [hs1]
            exact hw
          · exact hd
          · rw [hs1]
            exact le_max_left _ _
          · rw [hs1]
            show (Health.damage s.enemy.health w.damage).toNat < f
            unfold Health.damage at hne ⊢
            rcases max_cases 0 (s.enemy.health - w.damage) with ⟨h1, h2⟩ | ⟨h1, h2⟩ <;>
              rw [h1] at hne ⊢ <;> omega

/-- C3 (amended): if the player's chosen action every turn is a straight
attack with a weapon of strictly positive damage, the battle reaches a
terminal state in finitely many turns under every enemy action sequence. -/
theorem c3_battle_ends (pActs eActs : ℕ → Action) (i : ℕ) (w : Weapon) (s : BattleState)
    (hp : ∀ n, pActs n = .AttackStraight i)
    (hw : s.player.inventory[i]? = some (.Weapon w))
    (hd : 1 ≤ w.damage) (he : 0 ≤ s.enemy.health) :
    ∃ n, (battleRun pActs eActs n s).2 ≠ .Ongoing :=
  ⟨s.enemy.health.toNat + 1,
   battleRun_straight_ends _ pActs eActs i w s hp hw hd he (by omega)⟩

/-- Witness for the amended C3: from the sample state, always attacking
straight with the damage-3 weapon ends the battle. -/
theorem c3_battle_ends_witness :
    ∃ n, (battleRun alwaysStraight alwaysIdle n c3S).2 ≠ .Ongoing :=
  c3_battle_ends alwaysStraight alwaysIdle 0 ⟨"sword", 3⟩ c3S
    (fun _ => rfl) rfl (by decide) (by decide)

/-- With both sides doing nothing every turn, every turn resolves but no
health changes, so the battle stays `Ongoing` forever. -/
theorem battleRun_idle_ongoing :
    ∀ (n : ℕ) (pActs eActs : ℕ → Action) (pl : PlayerC) (en : Enemy) (t : ℤ),
    (∀ m, pActs m = .Nothing) → (∀ m, eActs m = .Nothing) →
    pl.health ≠ 0 → en.health ≠ 0 →
    (battleRun pActs eActs n ⟨pl, en, t⟩).2 = .Ongoing := by
  intro n
  induction n with
  | zero => intros; rfl
  | succ n ih =>
      intro pActs eActs pl en t hp he hpl hen
      have hstep : battleStep (pActs 0) (eActs 0) ⟨pl, en, t⟩ = (⟨pl, en, t + 1⟩, .Ongoing) := by
        rw [hp 0, he 0]
        simp [battleStep, resolve, playerEffect, Action.attackDir, hpl, hen]
      have hrun : battleRun pActs eActs (n + 1) ⟨pl, en, t⟩ =
          match battleStep (pActs 0) (eActs 0) ⟨pl, en, t⟩ with
          | (s', .Ongoing) => battleRun (fun k => pActs (k + 1)) (fun k => eActs (k + 1)) n s'
          | r => r := rfl
      rw [hrun, hstep]
      exact ih (fun k => pActs (k + 1)) (fun k => eActs (k + 1)) pl en (t + 1)
        (fun m => hp (m + 1)) (fun m => he (m + 1)) hpl hen

/-- Counterexample to C3 as stated: in `c3S` both combatants' attack
actions deal strictly positive, bounded damage (weapon damage 3, enemy
damage 2), yet under the action sequence in which both sides always choose
`Nothing` the battle never reaches a terminal state. -/
theorem c3_counterexample :
    ¬ ∃ n, (battleRun alwaysIdle alwaysIdle n c3S).2 ≠ .Ongoing := by
  rintro ⟨n, hn⟩
  exact hn (battleRun_idle_ongoing n alwaysIdle alwaysIdle
    ⟨10, 10, [Item.Weapon ⟨"sword", 3⟩]⟩ ⟨5, 5, 2⟩ 0
    (fun _ => rfl) (fun _ => rfl) (by decide) (by decide))

/-- One battle iteration never moves the turn counter by anything but 0
(rejected turn) or +1 (resolved turn). -/
theorem battleStep_turn (pa ea : Action) (s : BattleState) :
    (battleStep pa ea s).1.turn = s.turn ∨ (battleStep pa ea s).1.turn = s.turn + 1 := by
  unfold battleStep
  rcases resolve s.player s.enemy pa ea with err | ⟨p', e'⟩
  · exact Or.inl rfl
  · exact Or.inr rfl

/-- The battle loop never decreases the turn counter. -/
theorem battleRun_turn_le :
    ∀ (n : ℕ) (pActs eActs : ℕ → Action) (s : BattleState),
    s.turn ≤ (battleRun pActs eActs n s).1.turn := by
  intro n
  induction n with
  | zero => intro pActs eActs s; exact le_refl _
  | succ n ih =>
      intro pActs eActs s
      have hrun : battleRun pActs eActs (n + 1) s =
          match battleStep (pActs 0) (eActs 0) s with
          | (s', .Ongoing) => battleRun (fun k => pActs (k + 1)) (fun k => eActs (k + 1)) n s'
          | r => r := rfl
      rw [hrun]
      have hturn := battleStep_turn (pActs 0) (eActs 0) s
      rcases hb : battleStep (pActs 0) (eActs 0) s with ⟨s1, st⟩
      rw [hb] at hturn
      simp only [Prod.fst] at hturn
      cases st with
      | Ongoing =>
          have h2 := ih (fun k => pActs (k + 1)) (fun k => eActs (k + 1)) s1
          show s.turn ≤ (battleRun (fun k => pActs (k + 1)) (fun k => eActs (k + 1)) n s1).1.turn
          rcases hturn with h | h <;> omega
      | PlayerWin =>
          show s.turn ≤ s1.turn
          rcases hturn with h | h <;> omega
      | PlayerLoss =>
          show s.turn ≤ s1.turn
          rcases hturn with h | h <;> omega

/-- Case analysis of one inner gameplay-loop iteration: either the room was
empty and the passive action ran at the incremented counter, or a battle
was fought against the room's occupant and ended in a loss (run restart) or
a win (play continues from the battle's final counter). -/
theorem innerStepFull_cases (init : Player) (inp : StepInput) (s : GameState)
    (s' : GameState) (out : StepOutcome)
    (h : innerStepFull init inp s = some (s', out)) :
    ((s.player.room_graph.rooms s.player.room).enemy = none ∧
      ∃ p2, s.player.take_passive_action inp.passive = some p2 ∧
        s' = ⟨p2, s.turn_number + 1⟩ ∧ out = .NoEnemy) ∨
    (∃ e, (s.player.room_graph.rooms s.player.room).enemy = some e ∧
      (battleRun inp.pActs inp.eActs inp.fuel
        ⟨(s.player.takeEnemy).2.toCombatant, e, s.turn_number + 1⟩).2 = .PlayerLoss ∧
      s' = ⟨init, 0⟩ ∧ out = .Fought .PlayerLoss) ∨
    (∃ e, (s.player.room_graph.rooms s.player.room).enemy = some e ∧
      (battleRun inp.pActs inp.eActs inp.fuel
        ⟨(s.player.takeEnemy).2.toCombatant, e, s.turn_number + 1⟩).2 = .PlayerWin ∧
      ∃ p2, ((s.player.takeEnemy).2.withCombatant
          (battleRun inp.pActs inp.eActs inp.fuel
            ⟨(s.player.takeEnemy).2.toCombatant, e, s.turn_number + 1⟩).1.player).take_passive_action
          inp.passive = some p2 ∧
        s' = ⟨p2, (battleRun inp.pActs inp.eActs inp.fuel
          ⟨(s.player.takeEnemy).2.toCombatant, e, s.turn_number + 1⟩).1.turn⟩ ∧
        out = .Fought .PlayerWin) := by
  unfold innerStepFull at h
  rcases hen : (s.player.room_graph.rooms s.player.room).enemy with _ | e <;> rw [hen] at h
  · have h1 : (match s.player.take_passive_action inp.passive with
        | some p2 => some ((⟨p2, s.turn_number + 1⟩ : GameState), StepOutcome.NoEnemy)
        | none => none) = some (s', out) := h
    rcases hpa : s.player.take_passive_action inp.passive with _ | p2 <;> rw [hpa] at h1
    · simp at h1
    · simp only [Option.some.injEq, Prod.mk.injEq] at h1
      exact Or.inl ⟨rfl, p2, rfl, h1.1.symm, h1.2.symm⟩
  · have h1 : (match (battleRun inp.pActs inp.eActs inp.fuel
          ⟨(s.player.takeEnemy).2.toCombatant, e, s.turn_number + 1⟩).2 with
        | .PlayerLoss => some ((⟨init, 0⟩ : GameState), StepOutcome.Fought .PlayerLoss)
        | .PlayerWin =>
            match ((s.player.takeEnemy).2.withCombatant
                (battleRun inp.pActs inp.eActs inp.fuel
                  ⟨(s.player.takeEnemy).2.toCombatant, e,
                    s.turn_number + 1⟩).1.player).take_passive_action inp.passive with
            | some p2 =>
                some ((⟨p2, (battleRun inp.pActs inp.eActs inp.fuel
                  ⟨(s.player.takeEnemy).2.toCombatant, e,
                    s.turn_number + 1⟩).1.turn⟩ : GameState), StepOutcome.Fought .PlayerWin)
            | none => none
        | .Ongoing => none) = some (s', out) := h
    rcases hst : (battleRun inp.pActs inp.eActs inp.fuel
        ⟨(s.player.takeEnemy).2.toCombatant, e, s.turn_number + 1⟩).2 with _ | _ | _ <;>
      rw [hst] at h1
    · simp at h1
    · rcases hpa : ((s.player.takeEnemy).2.withCombatant
          (battleRun inp.pActs inp.eActs inp.fuel
            ⟨(s.player.takeEnemy).2.toCombatant, e, s.turn_number + 1⟩).1.player).take_passive_action
          inp.passive with _ | p2 <;> rw [hpa] at h1
      · simp at h1
      · simp only [Option.some.injEq, Prod.mk.injEq] at h1
        exact Or.inr (Or.inr ⟨e, rfl, hst, p2, hpa, h1.1.symm, h1.2.symm⟩)
    · simp only [Option.some.injEq, Prod.mk.injEq] at h1
      exact Or.inr (Or.inl ⟨e, rfl, hst, h1.1.symm, h1.2.symm⟩)

/-- C2 (amended): the turn counter behaves monotonically within a run —
each resolved battle turn increments it by exactly 1, the battle loop never
decreases it, and one inner gameplay-loop iteration resets it to 0 when
(and only when) the battle ended in a player loss and the run restarts,
while every other iteration strictly increases it. -/
theorem c2_turn_counter :
    (∀ (pa ea : Action) (s : BattleState) (p' : PlayerC) (e' : Enemy),
        resolve s.player s.enemy pa ea = .ok (p', e') →
        (battleStep pa ea s).1.turn = s.turn + 1) ∧
    (∀ (pActs eActs : ℕ → Action) (n : ℕ) (s : BattleState),
        s.turn ≤ (battleRun pActs eActs n s).1.turn) ∧
    (∀ (init : Player) (inp : StepInput) (s s' : GameState) (out : StepOutcome),
        innerStepFull init inp s = some (s', out) →
        (out = .Fought .PlayerLoss → s'.turn_number = 0) ∧
        (out ≠ .Fought .PlayerLoss → s.turn_number < s'.turn_number)) := by
  refine ⟨?_, ?_, ?_⟩
  · intro pa ea s p' e' hres
    unfold battleStep
    rw [hres]
  · intro pActs eActs n s
    exact battleRun_turn_le n pActs eActs s
  · intro init inp s s' out h
    rcases innerStepFull_cases init inp s s' out h with
      ⟨-, p2, -, rfl, rfl⟩ | ⟨e, -, -, rfl, rfl⟩ | ⟨e, -, hst, p2, -, rfl, rfl⟩
    · constructor
      · intro hout
        simp at hout
      · intro _
        show s.turn_number < s.turn_number + 1
        omega
    · constructor
      · intro _
        rfl
      · intro hout
        exact absurd rfl hout
    · constructor
      · intro hout
        simp at hout
      · intro _
        have hle : s.turn_number + 1 ≤ (battleRun inp.pActs inp.eActs inp.fuel
            ⟨(s.player.takeEnemy).2.toCombatant, e, s.turn_number + 1⟩).1.turn :=
          battleRun_turn_le inp.fuel inp.pActs inp.eActs
            ⟨(s.player.takeEnemy).2.toCombatant, e, s.turn_number + 1⟩
        show s.turn_number < (battleRun inp.pActs inp.eActs inp.fuel
          ⟨(s.player.takeEnemy).2.toCombatant, e, s.turn_number + 1⟩).1.turn
        omega

/-- Witness for the amended C2: a quiet iteration (no battle) strictly
increases the counter from 0 to 1, and the losing iteration from `initL`
resets it to exactly 0. -/
theorem c2_turn_counter_witness : ((0:ℤ) < 1) ∧ ((0:ℤ) = 0) :=
  ⟨(c2_turn_counter.2.2 initW inpW ⟨initW, 0⟩ ⟨initW, 1⟩ .NoEnemy rfl).2 (by decide),
   (c2_turn_counter.2.2 initL inpL ⟨initL, 0⟩ ⟨initL, 0⟩ (.Fought .PlayerLoss) rfl).1 rfl⟩

/-- Counterexample to C2 as stated: in the session starting from `initL`
the first battle advances the shared turn counter to 2 and ends in a player
loss, after which the inner loop continues with the counter reset to 0
(`main.rs` re-initialises `turn_number` inside the outer time loop), so the
counter is not shared monotonically across the whole session and decreases
between the first battle and the next. -/
theorem c2_counterexample :
    (battleRun inpL.pActs inpL.eActs inpL.fuel
        ⟨(initL.takeEnemy).2.toCombatant, bridgeEnemy, 1⟩).1.turn = 2 ∧
    (battleRun inpL.pActs inpL.eActs inpL.fuel
        ⟨(initL.takeEnemy).2.toCombatant, bridgeEnemy, 1⟩).2 = .PlayerLoss ∧
    innerStepFull initL inpL ⟨initL, 0⟩ = some (⟨initL, 0⟩, .Fought .PlayerLoss) :=
  ⟨rfl, rfl, rfl⟩

/-- A passive action never changes any room's enemy slot: checking state
and moving touch no room, using an item touches only the player, and
picking up an item rewrites only the current room's item list. -/
theorem take_passive_action_enemy (p p' : Player) (a : PassiveAction)
    (h : p.take_passive_action a = some p') (r : Room) :
    (p'.room_graph.rooms r).enemy = (p.room_graph.rooms r).enemy := by
  cases a with
  | CheckState =>
      simp only [Player.take_passive_action, Option.some.injEq] at h
      rw [← h]
  | GoToRoom r0 =>
      simp only [Player.take_passive_action, Option.some.injEq] at h
      rw [← h]
  | UseItem i =>
      simp only [Player.take_passive_action] at h
      rcases hu : p.use_item i with p2 | msg <;> rw [hu] at h
      · simp only [Option.some.injEq] at h
        subst h
        unfold Player.use_item at hu
        rcases hit : p.inventory[i]? with _ | it <;> rw [hit] at hu
        · simp at hu
        · cases it with
          | Food f =>
              simp only [UseItemOutcome.ok.injEq] at hu
              rw [← hu]
          | Weapon w => simp at hu
      · simp at h
  | PickUpItem i =>
      simp only [Player.take_passive_action] at h
      rcases hit : (p.room_graph.rooms p.room).items[i]? with _ | it <;> rw [hit] at h
      · simp at h
      · simp only [Option.some.injEq] at h
        subst h
        show ((p.room_graph.update p.room _).rooms r).enemy = _
        unfold RoomGraph.update
        by_cases hr : r = p.room
        · subst hr
          simp
        · simp [hr]

/-- Taking the enemy out of the current room clears exactly that room's
slot and leaves every other slot untouched. -/
theorem takeEnemy_graph (p : Player) (r : Room) :
    ((p.takeEnemy).2.room_graph.rooms r).enemy =
      (if r = p.room then none else (p.room_graph.rooms r).enemy) := by
  unfold Player.takeEnemy RoomGraph.update
  by_cases hr : r = p.room
  · subst hr
    simp
  · simp [hr]

/-- C8: entering a room with an occupied enemy slot takes the occupant out
exactly once before the battle starts — the taken value is the occupant,
the slot reads empty from that point on and every other room is untouched
— and one gameplay-loop iteration leaves every enemy slot exactly as
follows: a no-battle iteration changes no slot; a won battle leaves the
fought room's slot empty (the enemy is never put back) and every other
slot unchanged; a lost battle discards the whole world and restarts from
the fresh initial player. -/
theorem c8_enemy_slot (init : Player) (inp : StepInput) (s : GameState) :
    (∀ e, (s.player.room_graph.rooms s.player.room).enemy = some e →
        (s.player.takeEnemy).1 = some e ∧
        ((s.player.takeEnemy).2.room_graph.rooms s.player.room).enemy = none ∧
        ∀ r, r ≠ s.player.room →
          ((s.player.takeEnemy).2.room_graph.rooms r).enemy =
            (s.player.room_graph.rooms r).enemy) ∧
    (∀ s' out, innerStepFull init inp s = some (s', out) →
        (out = .NoEnemy →
          ∀ r, (s'.player.room_graph.rooms r).enemy =
            (s.player.room_graph.rooms r).enemy) ∧
        (out = .Fought .PlayerWin →
          ∀ r, (s'.player.room_graph.rooms r).enemy =
            (if r = s.player.room then none
             else (s.player.room_graph.rooms r).enemy)) ∧
        (out = .Fought .PlayerLoss → s'.player = init)) := by
  constructor
  · intro e he
    refine ⟨?_, ?_, ?_⟩
    · show (s.player.room_graph.rooms s.player.room).enemy = some e
      exact he
    · rw [takeEnemy_graph]
      simp
    · intro r hr
      rw [takeEnemy_graph]
      simp [hr]
  · intro s' out h
    rcases innerStepFull_cases init inp s s' out h with
      ⟨hen, p2, hpa, rfl, rfl⟩ | ⟨e, -, -, rfl, rfl⟩ | ⟨e, hen, hst, p2, hpa, rfl, rfl⟩
    · refine ⟨?_, ?_, ?_⟩
      · intro _ r
        show (p2.room_graph.rooms r).enemy = (s.player.room_graph.rooms r).enemy
        exact take_passive_action_enemy _ _ _ hpa r
      · intro hout
        simp at hout
      · intro hout
        simp at hout
    · refine ⟨?_, ?_, ?_⟩
      · intro hout
        simp at hout
      · intro hout
        simp at hout
      · intro _
        rfl
    · refine ⟨?_, ?_, ?_⟩
      · intro hout
        simp at hout
      · intro _ r
        show (p2.room_graph.rooms r).enemy = _
        rw [take_passive_action_enemy _ _ _ hpa r]
        have hwc : (((s.player.takeEnemy).2.withCombatant
            (battleRun inp.pActs inp.eActs inp.fuel
              ⟨(s.player.takeEnemy).2.toCombatant, e,
                s.turn_number + 1⟩).1.player).room_graph.rooms r).enemy =
            (((s.player.takeEnemy).2.room_graph).rooms r).enemy := rfl
        rw [hwc, takeEnemy_graph]
      · intro hout
        simp at hout

/-- Witness for C8: in the session starting at `initL` the Bridge's
occupant is taken out and the slot reads empty; in the session starting at
`initB`, after the won battle the Bridge's slot still reads empty. -/
theorem c8_enemy_slot_witness :
    (initL.takeEnemy).1 = some bridgeEnemy ∧
      ((initL.takeEnemy).2.room_graph.rooms initL.room).enemy = none ∧
      (postWinPlayer.room_graph.rooms Room.Bridge).enemy = none :=
  ⟨((c8_enemy_slot initL inpL ⟨initL, 0⟩).1 bridgeEnemy rfl).1,
   ((c8_enemy_slot initL inpL ⟨initL, 0⟩).1 bridgeEnemy rfl).2.1,
   ((c8_enemy_slot initB inpB ⟨initB, 0⟩).2 ⟨postWinPlayer, 2⟩
       (.Fought .PlayerWin) rfl).2.1 rfl Room.Bridge⟩

/-- C1 (code divergence): using the Weapon in slot 0 outside of combat runs
into `panic!("Weapons cannot be used outside of combat")` in
`Player::use_item` — a process termination, not a returned
InvalidAction-shaped error value. -/
theorem c1_use_item_weapon_panics :
    c1Player.use_item 0 = .panicked "Weapons cannot be used outside of combat" :=
  rfl

end TextGame
